import Mathlib

-- Shallow embedding of the jsonencoder Go package (src/encoder.go).
-- Bytes are modelled as Nat values; machine counters (int64) as Int;
-- the pipe-writer sink as a flat byte list plus a closed flag; the
-- cancellation token as a Bool; a panic raised by a failed sink write as the
-- Except.error constructor carrying the encoder state at the moment of the
-- panic (Go unwinds to the deferred Release, which recovers).

/-- Byte-size threshold at which the encoder flushes (src/encoder.go, MAXBUFSIZE). -/
def MAXBUFSIZE : Nat := 4096

/-- Spaces per indent level in space mode (src/encoder.go, INDENT). -/
def INDENT : Nat := 4

/-- Default float rounding precision in decimal digits (src/encoder.go, PRECISION). -/
def PRECISION : Nat := 6

/-- Encoder configuration (src/encoder.go, EncoderConfig). `Indent` is the
indent mode: 0 = SPACE_MODE, 1 = TAB_MODE. -/
structure EncoderConfig where
  Indent : Nat
  Logging : Bool
  UTCTimestamps : Bool
  Round : Bool
  Precision : Nat
  Pretty : Bool
deriving DecidableEq

/-- The configuration installed by NewEncoder (src/encoder.go, lines 84-95). -/
def defaultConfig : EncoderConfig :=
  { Indent := 0, Logging := true, UTCTimestamps := false, Round := true,
    Precision := PRECISION, Pretty := false }

/-- EncoderConfig.Reset (src/encoder.go, lines 134-140).  The source sets
Indent, Logging, Round, UTCTimestamps and Pretty and does not touch
Precision. -/
def EncoderConfig.Reset (c : EncoderConfig) : EncoderConfig :=
  { c with Indent := 0, Logging := true, Round := true,
           UTCTimestamps := false, Pretty := false }

/-- Encoder state together with its observable environment.  `b`, `n`, `f`,
`d`, `s`, `c` mirror the Encoder struct fields (buffer, bytes written, write
count, pretty depth, pretty in-string flag, config).  `cancelled` models the
cancellation token having fired (ctx.Done closed); `sink` is the flat byte
stream the pipe writer has successfully received, `sinkClosed` models
w.Close(); `cap` models the buffer capacity as a high-water mark (at least
MAXBUFSIZE after acquisition); `oracle` lists the outcomes of upcoming sink
writes, an empty oracle meaning every write succeeds. -/
structure EncState where
  b : List Nat
  cap : Nat
  n : Int
  f : Int
  d : Int
  s : Bool
  c : EncoderConfig
  cancelled : Bool
  sink : List Nat
  sinkClosed : Bool
  oracle : List Bool
deriving DecidableEq

/-- The full byte stream appended so far: what the sink already received
followed by what is still pending in the buffer. -/
def outStream (st : EncState) : List Nat := st.sink ++ st.b

/-- The state of a freshly acquired encoder (src/encoder.go, GetEncoder): empty
buffer pre-grown to MAXBUFSIZE, fresh cancellation token, zero counters, the
NewEncoder default configuration. -/
def initState (oracle : List Bool) : EncState :=
  { b := [], cap := MAXBUFSIZE, n := 0, f := 0, d := 0, s := false,
    c := defaultConfig, cancelled := false, sink := [], sinkClosed := false,
    oracle := oracle }

/-- Encoder.Reset (src/encoder.go, lines 117-130): zeroes the counters and
pretty state, resets the config and empties the buffer.  The cancelled
context and the sink are not touched by Reset. -/
def encReset (st : EncState) : EncState :=
  { st with c := st.c.Reset, s := false, d := 0, n := 0, f := 0, b := [] }

/-- indentNewLine (src/encoder.go, lines 331-348): a newline byte followed by
`d * spaces` indent characters, where space mode (Indent = 0) uses 4 spaces
per level and any other mode uses one character per level (a tab in mode 1, a
space otherwise).  The loop bound `d * spaces` is a Go int, so a negative
depth yields no indent characters. -/
def indentNewLine (c : EncoderConfig) (d : Int) : List Nat :=
  let spaces : Int := if c.Indent ≠ 0 then 1 else 4
  let ch : Nat := if c.Indent = 1 then 9 else 32
  10 :: List.replicate (d * spaces).toNat ch

/-- The PrettyPrint read loop (src/encoder.go, lines 283-321): consumes bytes
until the buffer is exhausted or a 0 byte is read; a quote toggles the
in-string flag; in-string bytes are copied verbatim; outside a string the
structural bytes trigger depth changes and newline/indent runs.  Returns the
final depth, the in-string flag, the produced output and the bytes left
unread after an early break. -/
def ppLoop (c : EncoderConfig) : Int → Bool → List Nat → List Nat →
    Int × Bool × List Nat × List Nat
  | d, s, out, [] => (d, s, out, [])
  | d, s, out, x :: rest =>
    if x = 0 then (d, s, out, rest)
    else
      let s' := if x = 34 then !s else s
      if s' then ppLoop c d s' (out ++ [x]) rest
      else if x = 123 ∨ x = 91 then
        ppLoop c (d + 1) s' ((out ++ [x]) ++ indentNewLine c (d + 1)) rest
      else if x = 125 ∨ x = 93 then
        ppLoop c (d - 1) s' ((out ++ indentNewLine c (d - 1)) ++ [x]) rest
      else if x = 44 then ppLoop c d s' ((out ++ [x]) ++ indentNewLine c d) rest
      else if x = 58 then ppLoop c d s' (out ++ [x, 32]) rest
      else ppLoop c d s' (out ++ [x]) rest

/-- PrettyPrint (src/encoder.go, lines 266-329): runs the loop from the stored
depth and in-string flag over the whole buffer; if any output was produced it
replaces the buffer, otherwise whatever the loop left unread stays in the
buffer. -/
def PrettyPrint (st : EncState) : EncState :=
  let r := ppLoop st.c st.d st.s [] st.b
  if r.2.2.1.length > 0 then
    { st with d := r.1, s := r.2.1, b := r.2.2.1,
              cap := max st.cap r.2.2.1.length }
  else
    { st with d := r.1, s := r.2.1, b := r.2.2.2 }

/-- write (src/encoder.go, lines 234-258): a no-op on an empty buffer or once
the cancellation token has fired; otherwise pretty-prints when configured,
then writes the buffer to the sink.  A successful write moves the buffer into
the sink and bumps the counters; a failed write panics, modelled as
Except.error carrying the state (buffer and counters untouched). -/
def write (st : EncState) : Except EncState EncState :=
  if st.b.length = 0 then Except.ok st
  else if st.cancelled then Except.ok st
  else
    let st1 := if st.c.Pretty then PrettyPrint st else st
    if st1.oracle.headD true then
      Except.ok
        { st1 with
          sink := st1.sink ++ st1.b, b := [],
          f := st1.f + 1, n := st1.n + (st1.b.length : Int),
          oracle := st1.oracle.tail }
    else Except.error { st1 with oracle := st1.oracle.tail }

/-- flush (src/encoder.go, lines 188-192): writes only once the buffer size
has reached MAXBUFSIZE. -/
def flush (st : EncState) : Except EncState EncState :=
  if MAXBUFSIZE ≤ st.b.length then write st else Except.ok st

/-- AppendByte (src/encoder.go, lines 356-363): appends one byte unless the
cancellation token has fired.  The source performs no flush check here. -/
def AppendByte (st : EncState) (v : Nat) : EncState :=
  if st.cancelled then st
  else { st with b := st.b ++ [v], cap := max st.cap (st.b.length + 1) }

/-- AppendBytes (src/encoder.go, lines 366-374): appends a byte slice unless
the cancellation token has fired, then runs the flush check. -/
def AppendBytes (st : EncState) (v : List Nat) : Except EncState EncState :=
  if st.cancelled then Except.ok st
  else flush { st with b := st.b ++ v, cap := max st.cap (st.b.length + v.length) }

/-- Close (src/encoder.go, lines 143-147): write remaining bytes, fire the
cancellation token, close the sink. -/
def Close (st : EncState) : Except EncState EncState :=
  match write st with
  | Except.error e => Except.error e
  | Except.ok st1 => Except.ok { st1 with cancelled := true, sinkClosed := true }

/-- Release (src/encoder.go, lines 204-224): recovers a panic raised by a
failed sink write (the Except.error case), in which case it fires the
cancellation token and closes the sink; reports the write count, the bytes
written and the buffer capacity; then resets the encoder. -/
def Release : Except EncState EncState → (Int × Int × Nat) × EncState
  | Except.ok st => ((st.f, st.n, st.cap), encReset st)
  | Except.error st =>
    let st1 := { st with cancelled := true, sinkClosed := true }
    ((st1.f, st1.n, st1.cap), encReset st1)

/-- Delim (src/encoder.go, lines 426-428): append a comma. -/
def Delim (st : EncState) : EncState := AppendByte st 44

/-- EncodeKey (src/encoder.go, lines 430-434): quote mark, AppendBytes of the
value, quote mark. -/
def EncodeKey (st : EncState) (v : List Nat) : Except EncState EncState :=
  match AppendBytes (AppendByte st 34) v with
  | Except.error e => Except.error e
  | Except.ok st2 => Except.ok (AppendByte st2 34)

/-- ObjectKey (src/encoder.go, lines 376-379): EncodeKey followed by a colon. -/
def ObjectKey (st : EncState) (v : List Nat) : Except EncState EncState :=
  match EncodeKey st v with
  | Except.error e => Except.error e
  | Except.ok st1 => Except.ok (AppendByte st1 58)

/-- Fuel-driven helper for the decimal ASCII representation. -/
def uintDecimalAux : Nat → Nat → List Nat
  | 0, _ => []
  | fuel + 1, n =>
    if n < 10 then [48 + n]
    else uintDecimalAux fuel (n / 10) ++ [48 + n % 10]

/-- Decimal ASCII digits of an unsigned integer, most significant first
(models strconv.AppendUint with base 10, Go stdlib). -/
def uintDecimal (n : Nat) : List Nat := uintDecimalAux (n + 1) n

/-- writeUint64Key (src/encoder.go, lines 488-505): format the value in
decimal, emit the quoted key and colon, emit the digits (quote-wrapped via
EncodeKey in the encoded variant), then optionally a trailing comma. -/
def writeUint64Key (st : EncState) (key : List Nat) (value : Nat)
    (dl encode : Bool) : Except EncState EncState :=
  let ds := uintDecimal value
  match ObjectKey st key with
  | Except.error e => Except.error e
  | Except.ok st1 =>
    match (if encode then EncodeKey st1 ds else AppendBytes st1 ds) with
    | Except.error e => Except.error e
    | Except.ok st2 => Except.ok (if dl then Delim st2 else st2)

/-- WriteUint64Key (src/encoder.go, lines 444-446); the value is a uint64. -/
def WriteUint64Key (st : EncState) (key : List Nat) (value : Nat) (dl : Bool) :
    Except EncState EncState :=
  writeUint64Key st key (value % 18446744073709551616) dl false

/-- WriteEncodedUint64Key (src/encoder.go, lines 448-450). -/
def WriteEncodedUint64Key (st : EncState) (key : List Nat) (value : Nat)
    (dl : Bool) : Except EncState EncState :=
  writeUint64Key st key (value % 18446744073709551616) dl true

/-- WriteUint32Key (src/encoder.go, lines 436-438): widens the uint32 value
and delegates to WriteUint64Key. -/
def WriteUint32Key (st : EncState) (key : List Nat) (value : Nat) (dl : Bool) :
    Except EncState EncState :=
  WriteUint64Key st key (value % 4294967296) dl

/-- WriteEncodedUint32Key (src/encoder.go, lines 440-442). -/
def WriteEncodedUint32Key (st : EncState) (key : List Nat) (value : Nat)
    (dl : Bool) : Except EncState EncState :=
  WriteEncodedUint64Key st key (value % 4294967296) dl

/-- The Escape accumulation loop (src/encoder.go, lines 386-408): newline
becomes a space, backslash becomes two backslashes, everything else is copied
unchanged. -/
def escapeLoop (acc : List Nat) : List Nat → List Nat
  | [] => acc
  | x :: rest =>
    if x = 10 then escapeLoop (acc ++ [32]) rest
    else if x = 92 then escapeLoop (acc ++ [92, 92]) rest
    else escapeLoop (acc ++ [x]) rest

/-- Escape (src/encoder.go, lines 386-408). -/
def Escape (value : List Nat) : List Nat := escapeLoop [] value

/-- The per-byte substitution table exactly as the spec states it
(spec.md section 4.3), for comparison with Escape. -/
def escapeSpec : List Nat → List Nat
  | [] => []
  | x :: rest =>
    (if x = 92 then [92, 92] else if x = 10 then [32] else [x]) ++ escapeSpec rest

/-- RoundFloat (src/encoder.go, lines 483-486), with the float64 arithmetic
modelled as exact rational arithmetic: s = 10^Precision (math.Pow),
floor(value * s + 0.5) / s (math.Floor). -/
def RoundFloat (c : EncoderConfig) (value : ℚ) : ℚ :=
  let s : ℚ := 10 ^ c.Precision
  (⌊value * s + 1 / 2⌋ : ℚ) / s

/-- Proleptic-Gregorian conversion from days since 1970-01-01 to
(year, month, day).  Models the civil-calendar computation of the Go time
package (stdlib, outside src/), using the standard civil-from-days
algorithm. -/
def dateFromDays (days : Nat) : Nat × Nat × Nat :=
  let z := days + 719468
  let era := z / 146097
  let doe := z % 146097
  let yoe := (doe - doe / 1460 + doe / 36524 - doe / 146096) / 365
  let y := yoe + era * 400
  let doy := doe - (365 * yoe + yoe / 4 - yoe / 100)
  let mp := (5 * doy + 2) / 153
  let dy := doy - (153 * mp + 2) / 5 + 1
  let m := if mp < 10 then mp + 3 else mp - 9
  (if m ≤ 2 then y + 1 else y, m, dy)

/-- Two-digit zero-padded decimal field (Go layout components 01, 02, 15, 04,
05).  Every field formatted this way is below 100, where this agrees with the
Go formatter. -/
def two (n : Nat) : List Nat := [48 + n / 10 % 10, 48 + n % 10]

/-- Four-digit zero-padded decimal field (Go layout component 2006).  Every
year reachable from a uint32 unix timestamp is below 10000, where this agrees
with the Go formatter. -/
def four (n : Nat) : List Nat :=
  [48 + n / 1000 % 10, 48 + n / 100 % 10, 48 + n / 10 % 10, 48 + n % 10]

/-- Formatting of a unix second count with the ISO8601 layout
`2006-01-02T15:04:05` (src/encoder.go, line 29; the rendering itself is done
by the Go time package, stdlib, outside src/). -/
def formatISO8601 (sec : Nat) : List Nat :=
  let days := sec / 86400
  let rem := sec % 86400
  let ymd := dateFromDays days
  four ymd.1 ++ [45] ++ two ymd.2.1 ++ [45] ++ two ymd.2.2 ++ [84] ++
    two (rem / 3600) ++ [58] ++ two (rem % 3600 / 60) ++ [58] ++ two (rem % 60)

/-- WriteUint32Timestamp (src/encoder.go, lines 460-481).  With UTCTimestamps
the text is the UTC rendering under layout ISO8601u, whose trailing `+00` is
a literal; otherwise the local rendering under layout ISO8601.  The local
clock is modelled as UTC shifted by `off` seconds, the zone offset the
environment applies at the formatted instant (the time package reads it from
the process environment, outside src/). -/
def WriteUint32Timestamp (off : Int) (st : EncState) (key : List Nat)
    (value : Nat) (dl : Bool) : Except EncState EncState :=
  let v := value % 4294967296
  let ts := if st.c.UTCTimestamps then formatISO8601 v ++ [43, 48, 48]
            else formatISO8601 (Int.toNat ((v : Int) + off))
  match ObjectKey st key with
  | Except.error e => Except.error e
  | Except.ok st1 =>
    match AppendBytes (AppendByte st1 34) ts with
    | Except.error e => Except.error e
    | Except.ok st3 =>
      let st4 := AppendByte st3 34
      Except.ok (if dl then Delim st4 else st4)

/-- A caller-driven append operation, for stating properties over arbitrary
sequences of appends. -/
inductive AppendOp where
  | byte (b : Nat)
  | bytes (bs : List Nat)
deriving DecidableEq

/-- The bytes an operation appends. -/
def opBytes : AppendOp → List Nat
  | AppendOp.byte b => [b]
  | AppendOp.bytes bs => bs

/-- The bytes a sequence of operations appends, in order. -/
def opsBytes : List AppendOp → List Nat
  | [] => []
  | op :: rest => opBytes op ++ opsBytes rest

/-- Whether the last operation of a sequence is an AppendBytes. -/
def lastBytes : List AppendOp → Bool
  | [] => false
  | [AppendOp.bytes _] => true
  | [AppendOp.byte _] => false
  | _ :: op :: rest => lastBytes (op :: rest)

/-- Run a sequence of append operations; a panic raised by a failed sink
write aborts the run (Go unwinds to the deferred Release). -/
def runOps (st : EncState) : List AppendOp → Except EncState EncState
  | [] => Except.ok st
  | AppendOp.byte b :: rest => runOps (AppendByte st b) rest
  | AppendOp.bytes bs :: rest =>
    match AppendBytes st bs with
    | Except.error e => Except.error e
    | Except.ok st1 => runOps st1 rest

/-- A live encoder in its default operating regime: cancellation unfired,
pretty mode off (the acquired default), every sink write succeeding. -/
def Good (st : EncState) : Prop :=
  st.cancelled = false ∧ st.c.Pretty = false ∧ st.oracle = []

/-- The byte shape `YYYY-MM-DDTHH:MM:SS`: four decimal digit bytes, a dash,
two digits, a dash, two digits, a T, two digits, a colon, two digits, a
colon, two digits — 19 bytes in all. -/
def isoShape (l : List Nat) : Prop :=
  ∃ a1 a2 a3 a4 b1 b2 c1 c2 d1 d2 e1 e2 f1 f2 : Nat,
    l = [a1, a2, a3, a4, 45, b1, b2, 45, c1, c2, 84, d1, d2, 58, e1, e2, 58, f1, f2] ∧
    (∀ x ∈ [a1, a2, a3, a4, b1, b2, c1, c2, d1, d2, e1, e2, f1, f2],
      48 ≤ x ∧ x ≤ 57)

-- ===================================================================
-- Helper lemmas
-- ===================================================================

/-- AppendByte on a live encoder extends the buffer by one byte. -/
theorem AppendByte_eq (st : EncState) (v : Nat) (hc : st.cancelled = false) :
    AppendByte st v =
      { st with b := st.b ++ [v], cap := max st.cap (st.b.length + 1) } := by
  simp [AppendByte, hc]

/-- AppendByte preserves liveness and extends the appended stream by one byte. -/
theorem good_AppendByte (st : EncState) (v : Nat) (h : Good st) :
    Good (AppendByte st v) ∧ (AppendByte st v).c = st.c ∧
      outStream (AppendByte st v) = outStream st ++ [v] := by
  obtain ⟨hc, hp, ho⟩ := h
  rw [AppendByte_eq st v hc]
  exact ⟨⟨hc, hp, ho⟩, rfl, by simp [outStream]⟩

/-- A live write on a nonempty buffer with a succeeding sink moves the buffer
into the sink and bumps the counters. -/
theorem write_ok (st : EncState) (hne : ¬ st.b.length = 0)
    (hc : st.cancelled = false) (hp : st.c.Pretty = false)
    (ho : st.oracle = []) :
    write st = Except.ok
      { st with
        sink := st.sink ++ st.b, b := [],
        f := st.f + 1, n := st.n + (st.b.length : Int) } := by
  simp [write, hne, hc, hp, ho]

/-- AppendBytes on a live encoder succeeds, preserves liveness, extends the
appended stream by the given bytes and leaves the buffer strictly below the
flush threshold. -/
theorem appendBytes_good (st : EncState) (bs : List Nat) (h : Good st) :
    ∃ st', AppendBytes st bs = Except.ok st' ∧ Good st' ∧ st'.c = st.c ∧
      outStream st' = outStream st ++ bs ∧ st'.b.length < MAXBUFSIZE := by
  obtain ⟨hc, hp, ho⟩ := h
  have h2 : AppendBytes st bs =
      flush { st with b := st.b ++ bs, cap := max st.cap (st.b.length + bs.length) } := by
    simp [AppendBytes, hc]
  by_cases hlen : MAXBUFSIZE ≤ st.b.length + bs.length
  · have hne : ¬ (st.b ++ bs).length = 0 := by
      have hpos : (0 : Nat) < MAXBUFSIZE := by decide
      simp only [List.length_append]
      omega
    have hw := write_ok
      { st with b := st.b ++ bs, cap := max st.cap (st.b.length + bs.length) }
      hne hc hp ho
    rw [h2]
    simp only [flush]
    rw [if_pos (by simpa using hlen), hw]
    refine ⟨_, rfl, ⟨hc, hp, ho⟩, rfl, ?_, ?_⟩
    · simp [outStream]
    · show ([] : List Nat).length < MAXBUFSIZE
      decide
  · rw [h2]
    simp only [flush]
    rw [if_neg (by simpa using hlen)]
    refine ⟨_, rfl, ⟨hc, hp, ho⟩, rfl, ?_, ?_⟩
    · simp [outStream]
    · simp only [List.length_append]
      omega

/-- AppendBytes below the flush threshold just extends the buffer. -/
theorem AppendBytes_small (st : EncState) (bs : List Nat)
    (hc : st.cancelled = false) (hlen : st.b.length + bs.length < MAXBUFSIZE) :
    AppendBytes st bs = Except.ok
      { st with b := st.b ++ bs, cap := max st.cap (st.b.length + bs.length) } := by
  have hno : ¬ MAXBUFSIZE ≤ st.b.length + bs.length := by omega
  simp [AppendBytes, hc, flush, hno]

/-- PrettyPrint touches only the buffer, the depth/in-string state and the
capacity. -/
theorem prettyPrint_fields (st : EncState) :
    (PrettyPrint st).n = st.n ∧ (PrettyPrint st).sink = st.sink ∧
    (PrettyPrint st).f = st.f ∧ (PrettyPrint st).cancelled = st.cancelled ∧
    (PrettyPrint st).c = st.c ∧ (PrettyPrint st).oracle = st.oracle := by
  simp only [PrettyPrint]
  split <;> simp

/-- EncodeKey on a live encoder appends the quote-wrapped value to the
stream. -/
theorem encodeKey_good (st : EncState) (v : List Nat) (h : Good st) :
    ∃ st', EncodeKey st v = Except.ok st' ∧ Good st' ∧ st'.c = st.c ∧
      outStream st' = outStream st ++ [34] ++ v ++ [34] := by
  obtain ⟨hg1, hc1, hos1⟩ := good_AppendByte st 34 h
  obtain ⟨st2, he, hg2, hcfg2, hos2, _⟩ := appendBytes_good (AppendByte st 34) v hg1
  refine ⟨AppendByte st2 34, ?_, (good_AppendByte st2 34 hg2).1, ?_, ?_⟩
  · simp only [EncodeKey, he]
  · rw [(good_AppendByte st2 34 hg2).2.1, hcfg2, hc1]
  · rw [(good_AppendByte st2 34 hg2).2.2, hos2, hos1]

/-- ObjectKey on a live encoder appends the quoted key and a colon to the
stream. -/
theorem objectKey_good (st : EncState) (v : List Nat) (h : Good st) :
    ∃ st', ObjectKey st v = Except.ok st' ∧ Good st' ∧ st'.c = st.c ∧
      outStream st' = outStream st ++ [34] ++ v ++ [34, 58] := by
  obtain ⟨st1, he, hg1, hc1, hos1⟩ := encodeKey_good st v h
  refine ⟨AppendByte st1 58, ?_, (good_AppendByte st1 58 hg1).1, ?_, ?_⟩
  · simp only [ObjectKey, he]
  · rw [(good_AppendByte st1 58 hg1).2.1, hc1]
  · rw [(good_AppendByte st1 58 hg1).2.2, hos1]
    simp [List.append_assoc]

/-- writeUint64Key on a live encoder appends the quoted key, the colon, the
decimal digits (quote-wrapped in the encoded variant) and the optional
trailing comma. -/
theorem writeUint64Key_good (st : EncState) (key : List Nat) (value : Nat)
    (dl encode : Bool) (h : Good st) :
    ∃ st', writeUint64Key st key value dl encode = Except.ok st' ∧ Good st' ∧
      st'.c = st.c ∧
      outStream st' = outStream st ++ [34] ++ key ++ [34, 58] ++
        (if encode then [34] ++ uintDecimal value ++ [34] else uintDecimal value) ++
        (if dl then [44] else []) := by
  obtain ⟨st1, he1, hg1, hc1, hos1⟩ := objectKey_good st key h
  have hmid : ∃ st2, (if encode then EncodeKey st1 (uintDecimal value)
        else AppendBytes st1 (uintDecimal value)) = Except.ok st2 ∧ Good st2 ∧
      st2.c = st1.c ∧ outStream st2 = outStream st1 ++
        (if encode then [34] ++ uintDecimal value ++ [34] else uintDecimal value) := by
    cases encode
    · obtain ⟨st2, he2, hg2, hc2, hos2, _⟩ := appendBytes_good st1 (uintDecimal value) hg1
      exact ⟨st2, by simpa using he2, hg2, hc2, by simpa using hos2⟩
    · obtain ⟨st2, he2, hg2, hc2, hos2⟩ := encodeKey_good st1 (uintDecimal value) hg1
      exact ⟨st2, by simpa using he2, hg2, hc2,
        by simpa [List.append_assoc] using hos2⟩
  obtain ⟨st2, he2, hg2, hc2, hos2⟩ := hmid
  have hfin : ∃ st3, (if dl then Delim st2 else st2) = st3 ∧ Good st3 ∧
      st3.c = st2.c ∧ outStream st3 = outStream st2 ++ (if dl then [44] else []) := by
    cases dl
    · exact ⟨st2, by simp, hg2, rfl, by simp⟩
    · exact ⟨Delim st2, by simp, (good_AppendByte st2 44 hg2).1,
        (good_AppendByte st2 44 hg2).2.1,
        by simpa [Delim] using (good_AppendByte st2 44 hg2).2.2⟩
  obtain ⟨st3, he3, hg3, hc3, hos3⟩ := hfin
  refine ⟨st3, ?_, hg3, by rw [hc3, hc2, hc1], ?_⟩
  · simp only [writeUint64Key, he1, he2]
    rw [he3]
  · rw [hos3, hos2, hos1]

/-- Running any sequence of append operations on a live encoder succeeds,
extends the appended stream by exactly the appended bytes in order, and, when
the last operation is an AppendBytes, leaves the buffer strictly below the
flush threshold. -/
theorem runOps_good (ops : List AppendOp) : ∀ st : EncState, Good st →
    ∃ st', runOps st ops = Except.ok st' ∧ Good st' ∧ st'.c = st.c ∧
      outStream st' = outStream st ++ opsBytes ops ∧
      (lastBytes ops = true → st'.b.length < MAXBUFSIZE) := by
  induction ops with
  | nil =>
    intro st h
    exact ⟨st, rfl, h, rfl, by simp [opsBytes], by intro hl; cases hl⟩
  | cons op rest ih =>
    intro st h
    cases op with
    | byte bv =>
      obtain ⟨hg1, hc1, hos1⟩ := good_AppendByte st bv h
      obtain ⟨st', h1, h2, h3, h4, h5⟩ := ih (AppendByte st bv) hg1
      refine ⟨st', h1, h2, h3.trans hc1, ?_, ?_⟩
      · rw [h4, hos1]
        simp [opsBytes, opBytes]
      · intro hl
        apply h5
        cases rest with
        | nil => simp [lastBytes] at hl
        | cons op2 rest2 => simpa [lastBytes] using hl
    | bytes bs =>
      obtain ⟨st1, he, hg1, hc1, hos1, hlen1⟩ := appendBytes_good st bs h
      obtain ⟨st', h1, h2, h3, h4, h5⟩ := ih st1 hg1
      refine ⟨st', ?_, h2, h3.trans hc1, ?_, ?_⟩
      · simp only [runOps, he]
        exact h1
      · rw [h4, hos1]
        simp [opsBytes, opBytes, List.append_assoc]
      · intro hl
        cases rest with
        | nil =>
          have h1n : Except.ok st1 = Except.ok st' := h1
          injection h1n with h1e
          rw [← h1e]
          exact hlen1
        | cons op2 rest2 =>
          exact h5 (by simpa [lastBytes] using hl)

/-- Below the flush threshold, a sequence of append operations only extends
the buffer: the sink and the counters are untouched. -/
theorem runOps_small (ops : List AppendOp) : ∀ st : EncState,
    st.cancelled = false →
    st.b.length + (opsBytes ops).length < MAXBUFSIZE →
    ∃ st', runOps st ops = Except.ok st' ∧ st'.b = st.b ++ opsBytes ops ∧
      st'.sink = st.sink ∧ st'.f = st.f ∧ st'.n = st.n := by
  induction ops with
  | nil =>
    intro st hc _
    exact ⟨st, rfl, by simp [opsBytes], rfl, rfl, rfl⟩
  | cons op rest ih =>
    intro st hc hlen
    cases op with
    | byte bv =>
      rw [show runOps st (AppendOp.byte bv :: rest) = runOps (AppendByte st bv) rest from rfl,
        AppendByte_eq st bv hc]
      obtain ⟨st', h1, h2, h3, h4, h5⟩ := ih
        { st with b := st.b ++ [bv], cap := max st.cap (st.b.length + 1) }
        hc (by simp only [opsBytes, opBytes, List.length_append,
          List.length_cons, List.length_nil] at hlen ⊢; omega)
      refine ⟨st', h1, ?_, h3, h4, h5⟩
      rw [h2]
      simp [opsBytes, opBytes]
    | bytes bs =>
      have hsmall : st.b.length + bs.length < MAXBUFSIZE := by
        simp only [opsBytes, opBytes, List.length_append] at hlen
        omega
      obtain ⟨st', h1, h2, h3, h4, h5⟩ := ih
        { st with b := st.b ++ bs, cap := max st.cap (st.b.length + bs.length) }
        hc (by simp only [opsBytes, opBytes, List.length_append] at hlen ⊢; omega)
      refine ⟨st', ?_, ?_, h3, h4, h5⟩
      · simp only [runOps, AppendBytes_small st bs hc hsmall]
        exact h1
      · rw [h2]
        simp [opsBytes, opBytes, List.append_assoc]

/-- write preserves the invariant that the byte counter equals the number of
bytes the sink has received, on both the success and the panic paths. -/
theorem write_counter (st : EncState) (h : st.n = (st.sink.length : Int)) :
    (∀ st2, write st = Except.ok st2 → st2.n = (st2.sink.length : Int)) ∧
    (∀ st2, write st = Except.error st2 → st2.n = (st2.sink.length : Int)) := by
  have hpp := prettyPrint_fields st
  unfold write
  by_cases hb : st.b.length = 0
  · rw [if_pos hb]
    exact ⟨fun st2 h2 => by injection h2 with h3; rw [← h3]; exact h,
      fun st2 h2 => Except.noConfusion h2⟩
  · rw [if_neg hb]
    by_cases hcan : st.cancelled = true
    · rw [if_pos hcan]
      exact ⟨fun st2 h2 => by injection h2 with h3; rw [← h3]; exact h,
        fun st2 h2 => Except.noConfusion h2⟩
    · rw [if_neg hcan]
      have h1n : (if st.c.Pretty then PrettyPrint st else st).n = st.n := by
        split
        · exact hpp.1
        · rfl
      have h1s : (if st.c.Pretty then PrettyPrint st else st).sink = st.sink := by
        split
        · exact hpp.2.1
        · rfl
      by_cases ho : (if st.c.Pretty then PrettyPrint st else st).oracle.headD true
      · rw [if_pos ho]
        refine ⟨fun st2 h2 => ?_, fun st2 h2 => Except.noConfusion h2⟩
        injection h2 with h3
        rw [← h3]
        simp only [List.length_append, h1n, h1s, h]
        push_cast
        ring
      · rw [if_neg ho]
        refine ⟨fun st2 h2 => Except.noConfusion h2, fun st2 h2 => ?_⟩
        injection h2 with h3
        rw [← h3]
        simp only [h1n, h1s, h]

/-- AppendBytes preserves the byte-counter invariant on both paths. -/
theorem appendBytes_counter (st : EncState) (bs : List Nat)
    (h : st.n = (st.sink.length : Int)) :
    (∀ st2, AppendBytes st bs = Except.ok st2 → st2.n = (st2.sink.length : Int)) ∧
    (∀ st2, AppendBytes st bs = Except.error st2 → st2.n = (st2.sink.length : Int)) := by
  unfold AppendBytes
  by_cases hcan : st.cancelled = true
  · rw [if_pos hcan]
    exact ⟨fun st2 h2 => by injection h2 with h3; rw [← h3]; exact h,
      fun st2 h2 => Except.noConfusion h2⟩
  · rw [if_neg hcan]
    unfold flush
    by_cases hl : MAXBUFSIZE ≤
        (st.b ++ bs).length
    · rw [if_pos hl]
      exact write_counter _ h
    · rw [if_neg hl]
      exact ⟨fun st2 h2 => by injection h2 with h3; rw [← h3]; exact h,
        fun st2 h2 => Except.noConfusion h2⟩

/-- Every reachable state, including the state carried by a sink-write panic,
has its byte counter equal to the number of bytes the sink received. -/
theorem runOps_counter (ops : List AppendOp) : ∀ st : EncState,
    st.n = (st.sink.length : Int) →
    (∀ st2, runOps st ops = Except.ok st2 → st2.n = (st2.sink.length : Int)) ∧
    (∀ st2, runOps st ops = Except.error st2 → st2.n = (st2.sink.length : Int)) := by
  induction ops with
  | nil =>
    intro st h
    exact ⟨fun st2 h2 => by injection h2 with h3; rw [← h3]; exact h,
      fun st2 h2 => Except.noConfusion h2⟩
  | cons op rest ih =>
    intro st h
    cases op with
    | byte bv =>
      have hA : (AppendByte st bv).n = ((AppendByte st bv).sink.length : Int) := by
        unfold AppendByte
        split
        · exact h
        · exact h
      exact ih (AppendByte st bv) hA
    | bytes bs =>
      have hAB := appendBytes_counter st bs h
      constructor
      · intro st2 h2
        cases hE : AppendBytes st bs with
        | error e =>
          rw [show runOps st (AppendOp.bytes bs :: rest) =
            (match AppendBytes st bs with
             | Except.error e => Except.error e
             | Except.ok st1 => runOps st1 rest) from rfl, hE] at h2
          exact Except.noConfusion h2
        | ok st1 =>
          rw [show runOps st (AppendOp.bytes bs :: rest) =
            (match AppendBytes st bs with
             | Except.error e => Except.error e
             | Except.ok st1 => runOps st1 rest) from rfl, hE] at h2
          exact (ih st1 (hAB.1 st1 hE)).1 st2 h2
      · intro st2 h2
        cases hE : AppendBytes st bs with
        | error e =>
          rw [show runOps st (AppendOp.bytes bs :: rest) =
            (match AppendBytes st bs with
             | Except.error e => Except.error e
             | Except.ok st1 => runOps st1 rest) from rfl, hE] at h2
          injection h2 with h3
          rw [← h3]
          exact hAB.2 e hE
        | ok st1 =>
          rw [show runOps st (AppendOp.bytes bs :: rest) =
            (match AppendBytes st bs with
             | Except.error e => Except.error e
             | Except.ok st1 => runOps st1 rest) from rfl, hE] at h2
          exact (ih st1 (hAB.1 st1 hE)).2 st2 h2

/-- The pretty-print loop consumes every byte of a buffer that contains no
zero byte. -/
theorem ppLoop_consumes (c : EncoderConfig) (buf : List Nat) :
    ∀ (d : Int) (s : Bool) (out : List Nat), ¬ 0 ∈ buf →
      (ppLoop c d s out buf).2.2.2 = [] := by
  induction buf with
  | nil =>
    intro d s out _
    rfl
  | cons x rest ih =>
    intro d s out hbuf
    have hx : ¬ x = 0 := fun h => hbuf (by simp [h])
    have hrest : ¬ 0 ∈ rest := fun h => hbuf (by simp [h])
    simp only [ppLoop, if_neg hx]
    split_ifs <;> exact ih _ _ _ hrest

-- ===================================================================
-- Claim theorems
-- ===================================================================

/-- C1 (amended): on a freshly acquired encoder, for every sequence of append
operations, no write to the sink occurs until the pending buffer size reaches
the threshold MAXBUFSIZE (below it the sink stays empty, the flush counter
stays 0 and the buffer holds exactly the appended bytes); the flush check
runs automatically after an AppendBytes, so after a trailing AppendBytes the
buffer is strictly below the threshold (AppendByte performs no such check);
and the stream the sink receives followed by the pending buffer is exactly
the appended bytes in their append order. -/
theorem C1_append_flush (ops : List AppendOp) :
    ∃ st', runOps (initState []) ops = Except.ok st' ∧
      outStream st' = opsBytes ops ∧
      ((opsBytes ops).length < MAXBUFSIZE →
        st'.sink = [] ∧ st'.f = 0 ∧ st'.b = opsBytes ops) ∧
      (lastBytes ops = true → st'.b.length < MAXBUFSIZE) := by
  obtain ⟨st', h1, _, _, h4, h5⟩ := runOps_good ops (initState []) ⟨rfl, rfl, rfl⟩
  refine ⟨st', h1, ?_, ?_, h5⟩
  · rw [h4]
    simp [outStream, initState]
  · intro hsmall
    obtain ⟨st2, g1, g2, g3, g4, _⟩ := runOps_small ops (initState []) rfl
      (by simpa [initState] using hsmall)
    rw [h1] at g1
    injection g1 with ge
    rw [← ge] at g2 g3 g4
    exact ⟨by simp [g3, initState], by simp [g4, initState],
      by simp [g2, initState]⟩

/-- C1 witness: two small appends stay entirely in the buffer, in order, with
no sink write. -/
theorem C1_append_flush_witness :
    ∃ st', runOps (initState []) [AppendOp.bytes [1, 2], AppendOp.byte 3] =
        Except.ok st' ∧
      outStream st' = [1, 2, 3] ∧ st'.sink = [] ∧ st'.f = 0 ∧
      st'.b = [1, 2, 3] := by
  obtain ⟨st', h1, h2, h3, _⟩ :=
    C1_append_flush [AppendOp.bytes [1, 2], AppendOp.byte 3]
  obtain ⟨g1, g2, g3⟩ := h3 (by decide)
  refine ⟨st', h1, ?_, g1, g2, ?_⟩
  · rw [h2]
    decide
  · rw [g3]
    decide

/-- C1 counterexample: an AppendBytes of 4095 bytes followed by an AppendByte
brings the pending buffer exactly to the threshold MAXBUFSIZE, yet no flush
happens — the sink stays empty and the flush counter stays 0, because
AppendByte performs no flush check (src/encoder.go, lines 356-363). -/
theorem C1_counterexample :
    ∃ st', runOps (initState [])
        [AppendOp.bytes (List.replicate 4095 1), AppendOp.byte 1] =
        Except.ok st' ∧
      MAXBUFSIZE ≤ st'.b.length ∧ st'.f = 0 ∧ st'.sink = [] := by
  have hA := AppendBytes_small (initState []) (List.replicate 4095 1) rfl
    (by simp only [initState, List.length_nil, List.length_replicate, MAXBUFSIZE]
        omega)
  refine ⟨AppendByte
    { initState [] with
      b := [] ++ List.replicate 4095 1,
      cap := max (initState []).cap
        ((initState []).b.length + (List.replicate 4095 1).length) } 1,
    ?_, ?_, ?_, ?_⟩
  · simp only [runOps, hA]
    rfl
  · show MAXBUFSIZE ≤ (([] ++ List.replicate 4095 1) ++ [1]).length
    simp only [List.nil_append, List.length_append, List.length_replicate,
      List.length_cons, List.length_nil, MAXBUFSIZE]
    omega
  · rfl
  · rfl

/-- C2: once the cancellation token has fired, AppendByte, AppendBytes, flush
and write are all no-ops: the state — pending buffer, byte counter, flush
counter — is unchanged and nothing reaches the sink. -/
theorem C2_cancelled_noop (st : EncState) (v : Nat) (bs : List Nat)
    (h : st.cancelled = true) :
    AppendByte st v = st ∧ AppendBytes st bs = Except.ok st ∧
    flush st = Except.ok st ∧ write st = Except.ok st := by
  have hw : write st = Except.ok st := by
    by_cases hb : st.b.length = 0 <;> simp [write, hb, h]
  refine ⟨by simp [AppendByte, h], by simp [AppendBytes, h], ?_, hw⟩
  unfold flush
  split
  · exact hw
  · rfl

/-- C2 witness: a concrete cancelled encoder with pending bytes is left
untouched by every operation. -/
theorem C2_cancelled_noop_witness :
    AppendByte { initState [] with cancelled := true, b := [5, 6] } 7 =
      { initState [] with cancelled := true, b := [5, 6] } ∧
    AppendBytes { initState [] with cancelled := true, b := [5, 6] } [8, 9] =
      Except.ok { initState [] with cancelled := true, b := [5, 6] } ∧
    flush { initState [] with cancelled := true, b := [5, 6] } =
      Except.ok { initState [] with cancelled := true, b := [5, 6] } ∧
    write { initState [] with cancelled := true, b := [5, 6] } =
      Except.ok { initState [] with cancelled := true, b := [5, 6] } :=
  C2_cancelled_noop { initState [] with cancelled := true, b := [5, 6] } 7 [8, 9] rfl

/-- C3 (amended): outside a string, `{` or `[` increments the depth, is
emitted, then triggers a newline plus an indent of the incremented depth;
whereas `}` or `]` first decrements the depth, then emits a newline plus an
indent of the decremented depth (not the depth before the change), and then
emits the closing character. -/
theorem C3_pp_brackets (c : EncoderConfig) (d : Int) (out rest : List Nat) :
    (∀ x, x = 123 ∨ x = 91 →
      ppLoop c d false out (x :: rest) =
        ppLoop c (d + 1) false ((out ++ [x]) ++ indentNewLine c (d + 1)) rest) ∧
    (∀ x, x = 125 ∨ x = 93 →
      ppLoop c d false out (x :: rest) =
        ppLoop c (d - 1) false ((out ++ indentNewLine c (d - 1)) ++ [x]) rest) := by
  constructor
  · rintro x (rfl | rfl) <;> rfl
  · rintro x (rfl | rfl) <;> rfl

/-- C3 witness: one opening and one closing bracket step at concrete depths. -/
theorem C3_pp_brackets_witness :
    ppLoop defaultConfig 0 false [] [91] =
      ppLoop defaultConfig 1 false (([] ++ [91]) ++ indentNewLine defaultConfig 1) [] ∧
    ppLoop defaultConfig 1 false [] [93] =
      ppLoop defaultConfig 0 false (([] ++ indentNewLine defaultConfig 0) ++ [93]) [] := by
  constructor
  · exact (C3_pp_brackets defaultConfig 0 [] []).1 91 (Or.inr rfl)
  · have h := (C3_pp_brackets defaultConfig 1 [] []).2 93 (Or.inr rfl)
    simpa using h

/-- C3 counterexample: pretty-printing the buffer `[]` emits the closing
bracket after a newline and zero indent characters (the decremented depth 0),
not after the four spaces of depth 1 that the claim's
indent-before-decrement order would produce. -/
theorem C3_counterexample :
    (PrettyPrint { initState [] with b := [91, 93] }).b =
      [91, 10, 32, 32, 32, 32, 10, 93] ∧
    (PrettyPrint { initState [] with b := [91, 93] }).b ≠
      [91, 10, 32, 32, 32, 32, 10, 32, 32, 32, 32, 93] := by
  decide

/-- C4: when a sink write fails during an acquisition, the panic state reaches
Release (never the caller: Release is a total function on the panic), which
fires the cancellation token, closes the sink, and returns the flush count,
byte count and retained buffer capacity of the panic state, whose byte
counter equals exactly the number of bytes the sink received from the writes
that succeeded before the failure. -/
theorem C4_release (oracle : List Bool) (ops : List AppendOp) (st : EncState)
    (h : runOps (initState oracle) ops = Except.error st) :
    (Release (Except.error st)).1 = (st.f, st.n, st.cap) ∧
    st.n = (st.sink.length : Int) ∧
    (Release (Except.error st)).2.cancelled = true ∧
    (Release (Except.error st)).2.sinkClosed = true ∧
    (Release (Except.error st)).2.b = [] ∧
    (Release (Except.error st)).2.n = 0 ∧
    (Release (Except.error st)).2.f = 0 := by
  refine ⟨rfl, ?_, rfl, rfl, rfl, rfl, rfl⟩
  exact (runOps_counter ops (initState oracle) (by simp [initState])).2 st h

/-- write on a live encoder whose next sink write fails panics, leaving the
buffer and the counters untouched. -/
theorem write_fail (st : EncState) (hne : ¬ st.b.length = 0)
    (hc : st.cancelled = false) (hp : st.c.Pretty = false)
    (ho : st.oracle = [false]) :
    write st = Except.error { st with oracle := [] } := by
  simp [write, hne, hc, hp, ho]

/-- An AppendBytes that reaches the threshold against a failing sink panics
with the appended bytes still pending. -/
theorem appendBytes_fail (st : EncState) (bs : List Nat)
    (hc : st.cancelled = false) (hp : st.c.Pretty = false)
    (ho : st.oracle = [false]) (hlen : MAXBUFSIZE ≤ st.b.length + bs.length) :
    AppendBytes st bs = Except.error
      { st with
        b := st.b ++ bs,
        cap := max st.cap (st.b.length + bs.length), oracle := [] } := by
  have h2 : AppendBytes st bs =
      flush { st with b := st.b ++ bs, cap := max st.cap (st.b.length + bs.length) } := by
    simp [AppendBytes, hc]
  have hne : ¬ (st.b ++ bs).length = 0 := by
    have hpos : (0 : Nat) < MAXBUFSIZE := by decide
    simp only [List.length_append]
    omega
  have hwf := write_fail
    { st with b := st.b ++ bs, cap := max st.cap (st.b.length + bs.length) }
    hne hc hp ho
  rw [h2]
  simp only [flush]
  rw [if_pos (by simpa using hlen), hwf]

/-- C4 witness: a single oversized append against a sink whose first write
fails panics with zero counters, and Release reports them with the retained
capacity and a cancelled, closed state. -/
theorem C4_release_witness :
    ∃ st : EncState,
      runOps (initState [false]) [AppendOp.bytes (List.replicate 4096 7)] =
        Except.error st ∧
      (Release (Except.error st)).1 = (st.f, st.n, st.cap) ∧
      st.n = (st.sink.length : Int) ∧
      (Release (Except.error st)).2.cancelled = true ∧
      (Release (Except.error st)).2.sinkClosed = true ∧
      st.f = 0 ∧ st.n = 0 ∧ st.cap = 4096 := by
  have hA := appendBytes_fail (initState [false]) (List.replicate 4096 7)
    rfl rfl rfl
    (by simp only [initState, List.length_nil, List.length_replicate]
        decide)
  have hrun : runOps (initState [false]) [AppendOp.bytes (List.replicate 4096 7)] =
      Except.error
        { initState [false] with
          b := (initState [false]).b ++ List.replicate 4096 7,
          cap := max (initState [false]).cap
            ((initState [false]).b.length + (List.replicate 4096 7).length),
          oracle := [] } := by
    simp only [runOps, hA]
  obtain ⟨g1, g2, g3, g4, _, _, _⟩ :=
    C4_release [false] [AppendOp.bytes (List.replicate 4096 7)] _ hrun
  refine ⟨_, hrun, g1, g2, g3, g4, rfl, rfl, ?_⟩
  show max (initState [false]).cap
    ((initState [false]).b.length + (List.replicate 4096 7).length) = 4096
  simp only [initState, List.length_nil, List.length_replicate, MAXBUFSIZE]
  omega

/-- C5: on a live encoder with an empty buffer and unfired cancellation token
(pretty off, sink writes succeeding), WriteUint32Key appends exactly the
bytes of the key in quotes, a colon and the decimal digits of the value, with
a trailing comma exactly when the delimiter flag is set; the encoded variant
WriteEncodedUint32Key additionally wraps the digits in quote marks.  The
appended bytes are read off the sink stream followed by the pending
buffer. -/
theorem C5_writeUint32Key (st : EncState) (key : List Nat) (value : Nat)
    (dl : Bool) (hb : st.b = []) (hg : Good st) (hv : value < 4294967296) :
    (∃ st', WriteUint32Key st key value dl = Except.ok st' ∧
      outStream st' = outStream st ++ [34] ++ key ++ [34, 58] ++
        uintDecimal value ++ (if dl then [44] else [])) ∧
    (∃ st', WriteEncodedUint32Key st key value dl = Except.ok st' ∧
      outStream st' = outStream st ++ [34] ++ key ++ [34, 58, 34] ++
        uintDecimal value ++ [34] ++ (if dl then [44] else [])) := by
  have hm : value % 4294967296 = value := Nat.mod_eq_of_lt hv
  have hm2 : value % 4294967296 % 18446744073709551616 = value := by
    rw [hm]
    exact Nat.mod_eq_of_lt (by omega)
  constructor
  · obtain ⟨st', he, _, _, hos⟩ :=
      writeUint64Key_good st key (value % 4294967296 % 18446744073709551616)
        dl false hg
    refine ⟨st', he, ?_⟩
    rw [hos, hm2]
    simp [List.append_assoc]
  · obtain ⟨st', he, _, _, hos⟩ :=
      writeUint64Key_good st key (value % 4294967296 % 18446744073709551616)
        dl true hg
    refine ⟨st', he, ?_⟩
    rw [hos, hm2]
    simp [List.append_assoc]

/-- C5 witness: the key `/foo/bar` with the value 473829 and a trailing
delimiter produces exactly the bytes of the Go test expectations. -/
theorem C5_writeUint32Key_witness :
    (∃ st', WriteUint32Key (initState []) [47, 102, 111, 111, 47, 98, 97, 114]
        473829 true = Except.ok st' ∧
      outStream st' = [34, 47, 102, 111, 111, 47, 98, 97, 114, 34, 58,
        52, 55, 51, 56, 50, 57, 44]) ∧
    (∃ st', WriteEncodedUint32Key (initState [])
        [47, 102, 111, 111, 47, 98, 97, 114] 473829 true = Except.ok st' ∧
      outStream st' = [34, 47, 102, 111, 111, 47, 98, 97, 114, 34, 58, 34,
        52, 55, 51, 56, 50, 57, 34, 44]) := by
  obtain ⟨⟨st1, he1, hos1⟩, ⟨st2, he2, hos2⟩⟩ :=
    C5_writeUint32Key (initState []) [47, 102, 111, 111, 47, 98, 97, 114]
      473829 true rfl ⟨rfl, rfl, rfl⟩ (by decide)
  refine ⟨⟨st1, he1, ?_⟩, ⟨st2, he2, ?_⟩⟩
  · rw [hos1]
    decide
  · rw [hos2]
    decide

/-- C6: Escape is the single forward pass that sends a backslash byte to two
backslash bytes, a newline byte to a single space byte, and leaves every
other byte unchanged, preserving order; in particular the two examples of
the spec hold. -/
theorem C6_escape :
    (∀ v : List Nat, Escape v = escapeSpec v) ∧
    Escape [47, 92] = [47, 92, 92] ∧ Escape [10] = [32] := by
  have hloop : ∀ (v : List Nat) (acc : List Nat),
      escapeLoop acc v = acc ++ escapeSpec v := by
    intro v
    induction v with
    | nil =>
      intro acc
      simp [escapeLoop, escapeSpec]
    | cons x rest ih =>
      intro acc
      by_cases h10 : x = 10
      · subst h10
        simp [escapeLoop, escapeSpec, ih]
      · by_cases h92 : x = 92
        · subst h92
          simp [escapeLoop, escapeSpec, ih]
        · simp [escapeLoop, escapeSpec, h10, h92, ih]
  exact ⟨fun v => by simpa [Escape] using hloop v [], by decide, by decide⟩

/-- C7: with rounding enabled, RoundFloat at precision p is exactly
floor(value * 10^p + 1/2) / 10^p — round half away from zero at that decimal
scale (float64 arithmetic modelled as exact rationals) — and at the default
precision 6 it sends 0.00010732467532467535 to 0.000107. -/
theorem C7_roundFloat :
    (∀ (c : EncoderConfig) (v : ℚ),
      RoundFloat c v = (⌊v * 10 ^ c.Precision + 1 / 2⌋ : ℚ) / 10 ^ c.Precision) ∧
    RoundFloat defaultConfig (10732467532467535 / 10 ^ 20) = 107 / 10 ^ 6 := by
  refine ⟨fun c v => rfl, ?_⟩
  have hfl : ⌊(10732467532467535 : ℚ) / 10 ^ 20 * 10 ^ 6 + 1 / 2⌋ = 107 := by
    rw [Int.floor_eq_iff]
    norm_num
  show (⌊(10732467532467535 : ℚ) / 10 ^ 20 * 10 ^ defaultConfig.Precision + 1 / 2⌋ : ℚ) /
      10 ^ defaultConfig.Precision = 107 / 10 ^ 6
  have hp : defaultConfig.Precision = 6 := rfl
  rw [hp, hfl]
  norm_num

/-- Building the ISO8601 layout from six numeric fields always yields the
`YYYY-MM-DDTHH:MM:SS` byte shape. -/
theorem isoShape_build (y mo dy hh mi ss : Nat) :
    isoShape (four y ++ [45] ++ two mo ++ [45] ++ two dy ++ [84] ++
      two hh ++ [58] ++ two mi ++ [58] ++ two ss) := by
  refine ⟨48 + y / 1000 % 10, 48 + y / 100 % 10, 48 + y / 10 % 10, 48 + y % 10,
    48 + mo / 10 % 10, 48 + mo % 10, 48 + dy / 10 % 10, 48 + dy % 10,
    48 + hh / 10 % 10, 48 + hh % 10, 48 + mi / 10 % 10, 48 + mi % 10,
    48 + ss / 10 % 10, 48 + ss % 10, ?_, ?_⟩
  · simp [four, two]
  · intro x hx
    fin_cases hx <;> constructor <;> omega

/-- Every formatted unix second count has the ISO8601 shape. -/
theorem formatISO8601_shape (sec : Nat) : isoShape (formatISO8601 sec) := by
  show isoShape (four (dateFromDays (sec / 86400)).1 ++ [45] ++
    two (dateFromDays (sec / 86400)).2.1 ++ [45] ++
    two (dateFromDays (sec / 86400)).2.2 ++ [84] ++
    two (sec % 86400 / 3600) ++ [58] ++ two (sec % 86400 % 3600 / 60) ++ [58] ++
    two (sec % 86400 % 60))
  exact isoShape_build _ _ _ _ _ _

/-- WriteUint32Timestamp on a live encoder appends the quoted key, a colon,
and the quote-wrapped timestamp text, then the optional comma. -/
theorem writeTimestamp_good (off : Int) (st : EncState) (key : List Nat)
    (value : Nat) (dl : Bool) (h : Good st) :
    ∃ st', WriteUint32Timestamp off st key value dl = Except.ok st' ∧
      outStream st' = outStream st ++ [34] ++ key ++ [34, 58, 34] ++
        (if st.c.UTCTimestamps then
          formatISO8601 (value % 4294967296) ++ [43, 48, 48]
         else formatISO8601 (Int.toNat (((value % 4294967296 : Nat) : Int) + off))) ++
        [34] ++ (if dl then [44] else []) := by
  obtain ⟨st1, he1, hg1, hc1, hos1⟩ := objectKey_good st key h
  obtain ⟨hgA, hcA, hosA⟩ := good_AppendByte st1 34 hg1
  obtain ⟨st3, he3, hg3, hc3, hos3, _⟩ := appendBytes_good (AppendByte st1 34)
    (if st.c.UTCTimestamps then
      formatISO8601 (value % 4294967296) ++ [43, 48, 48]
     else formatISO8601 (Int.toNat (((value % 4294967296 : Nat) : Int) + off))) hgA
  obtain ⟨hgB, hcB, hosB⟩ := good_AppendByte st3 34 hg3
  have hfin : ∃ st5,
      (if dl then Delim (AppendByte st3 34) else AppendByte st3 34) = st5 ∧
      outStream st5 = outStream (AppendByte st3 34) ++ (if dl then [44] else []) := by
    cases dl
    · exact ⟨AppendByte st3 34, rfl, by simp⟩
    · exact ⟨Delim (AppendByte st3 34), rfl,
        by simpa [Delim] using (good_AppendByte (AppendByte st3 34) 44 hgB).2.2⟩
  obtain ⟨st5, he5, hos5⟩ := hfin
  refine ⟨st5, ?_, ?_⟩
  · simp only [WriteUint32Timestamp, he1, he3, he5]
  · rw [hos5, hosB, hos3, hosA, hos1]
    simp [List.append_assoc]

/-- C8: on a live encoder, WriteUint32Timestamp appends `"<key>":"<text>"`
(plus an optional comma), where with UTC timestamps enabled the text is the
UTC rendering in the `YYYY-MM-DDTHH:MM:SS` shape followed by the literal
three bytes `+00`, and with UTC disabled it is the local rendering — UTC
shifted by the environment zone offset — in the same shape with no suffix. -/
theorem C8_timestamp (off : Int) (st : EncState) (key : List Nat) (value : Nat)
    (dl : Bool) (hg : Good st) (hv : value < 4294967296) :
    (st.c.UTCTimestamps = true →
      ∃ st', WriteUint32Timestamp off st key value dl = Except.ok st' ∧
        outStream st' = outStream st ++ [34] ++ key ++ [34, 58, 34] ++
          (formatISO8601 value ++ [43, 48, 48]) ++ [34] ++
          (if dl then [44] else [])) ∧
    (st.c.UTCTimestamps = false →
      ∃ st', WriteUint32Timestamp off st key value dl = Except.ok st' ∧
        outStream st' = outStream st ++ [34] ++ key ++ [34, 58, 34] ++
          formatISO8601 (Int.toNat (((value : Nat) : Int) + off)) ++ [34] ++
          (if dl then [44] else [])) ∧
    (∀ s2 : Nat, isoShape (formatISO8601 s2)) := by
  have hm : value % 4294967296 = value := Nat.mod_eq_of_lt hv
  obtain ⟨st', he, hos⟩ := writeTimestamp_good off st key value dl hg
  refine ⟨?_, ?_, fun s2 => formatISO8601_shape s2⟩
  · intro hutc
    refine ⟨st', he, ?_⟩
    rw [hos, hutc, hm]
    simp [List.append_assoc]
  · intro hutc
    refine ⟨st', he, ?_⟩
    rw [hos, hutc, hm]
    simp [List.append_assoc]

/-- C8 witness: the key `timestamp` at unix second 0 with UTC enabled yields
exactly the bytes of `"timestamp":"1970-01-01T00:00:00+00"`. -/
theorem C8_timestamp_witness :
    ∃ st', WriteUint32Timestamp 0
        { initState [] with c := { defaultConfig with UTCTimestamps := true } }
        [116, 105, 109, 101, 115, 116, 97, 109, 112] 0 false = Except.ok st' ∧
      outStream st' = [34, 116, 105, 109, 101, 115, 116, 97, 109, 112, 34, 58,
        34, 49, 57, 55, 48, 45, 48, 49, 45, 48, 49, 84, 48, 48, 58, 48, 48, 58,
        48, 48, 43, 48, 48, 34] := by
  obtain ⟨st', he, hos⟩ := (C8_timestamp 0
    { initState [] with c := { defaultConfig with UTCTimestamps := true } }
    [116, 105, 109, 101, 115, 116, 97, 109, 112] 0 false
    ⟨rfl, rfl, rfl⟩ (by decide)).1 rfl
  refine ⟨st', he, ?_⟩
  rw [hos]
  decide

/-- C9 (code bug): EncoderConfig.Reset restores Indent, Logging, Round,
UTCTimestamps and Pretty to their defaults but leaves Precision unchanged,
contradicting its own documentation ("Reset the encoder config back to the
defaults") and the NewEncoder default Precision of 6: a configuration with
Precision 3 still has Precision 3 after Reset. -/
theorem C9_reset_precision :
    (EncoderConfig.Reset
      { Indent := 1, Logging := false, UTCTimestamps := true, Round := false,
        Precision := 3, Pretty := true }).Precision = 3 ∧
    defaultConfig.Precision = 6 ∧
    EncoderConfig.Reset
      { Indent := 1, Logging := false, UTCTimestamps := true, Round := false,
        Precision := 3, Pretty := true } ≠ defaultConfig ∧
    (EncoderConfig.Reset
      { Indent := 1, Logging := false, UTCTimestamps := true, Round := false,
        Precision := 3, Pretty := true }).Indent = 0 ∧
    (EncoderConfig.Reset
      { Indent := 1, Logging := false, UTCTimestamps := true, Round := false,
        Precision := 3, Pretty := true }).Logging = true ∧
    (EncoderConfig.Reset
      { Indent := 1, Logging := false, UTCTimestamps := true, Round := false,
        Precision := 3, Pretty := true }).Round = true ∧
    (EncoderConfig.Reset
      { Indent := 1, Logging := false, UTCTimestamps := true, Round := false,
        Precision := 3, Pretty := true }).UTCTimestamps = false ∧
    (EncoderConfig.Reset
      { Indent := 1, Logging := false, UTCTimestamps := true, Round := false,
        Precision := 3, Pretty := true }).Pretty = false := by
  decide

/-- C10 counterexample: pretty-printing the buffer `[97, 0, 98]` stops at the
zero byte: only the byte before it survives, the zero byte and the byte after
it are dropped, so the pass does not consume (or emit) every byte. -/
theorem C10_counterexample :
    (PrettyPrint { initState [] with b := [97, 0, 98] }).b = [97] ∧
    (PrettyPrint { initState [] with b := [97, 0, 98] }).b ≠ [97, 0, 98] := by
  decide

/-- C10 (amended): the pretty-print loop consumes bytes until the buffer is
exhausted or a zero byte 0x00 is read: every nonzero byte consumed while the
in-string flag is set is copied verbatim and processing continues (a quote
also toggles the flag off); outside a string every nonzero non-structural
byte is emitted verbatim; a zero byte terminates the pass with the remaining
bytes unconsumed; and when the buffer contains no zero byte every byte is
consumed. -/
theorem C10_pp_consumption (c : EncoderConfig) :
    (∀ (d : Int) (out rest : List Nat) (x : Nat), x ≠ 0 →
      ppLoop c d true out (x :: rest) =
        ppLoop c d (if x = 34 then false else true) (out ++ [x]) rest) ∧
    (∀ (d : Int) (out rest : List Nat) (x : Nat), x ≠ 0 → x ≠ 34 → x ≠ 123 →
        x ≠ 91 → x ≠ 125 → x ≠ 93 → x ≠ 44 → x ≠ 58 →
      ppLoop c d false out (x :: rest) = ppLoop c d false (out ++ [x]) rest) ∧
    (∀ (d : Int) (s : Bool) (out rest : List Nat),
      ppLoop c d s out (0 :: rest) = (d, s, out, rest)) ∧
    (∀ buf : List Nat, ¬ 0 ∈ buf → ∀ (d : Int) (s : Bool) (out : List Nat),
      (ppLoop c d s out buf).2.2.2 = []) := by
  refine ⟨?_, ?_, ?_, fun buf hbuf d s out => ppLoop_consumes c buf d s out hbuf⟩
  · intro d out rest x hx
    by_cases h34 : x = 34
    · subst h34
      simp [ppLoop]
    · simp [ppLoop, hx, h34]
  · intro d out rest x hx h34 h123 h91 h125 h93 h44 h58
    simp [ppLoop, hx, h34, h123, h91, h125, h93, h44, h58]
  · intro d s out rest
    simp [ppLoop]

/-- C10 witness: concrete steps — an in-string byte copied verbatim, an
outside non-structural byte copied verbatim, a zero byte ending the pass with
the tail unread, and a zero-free buffer fully consumed. -/
theorem C10_pp_consumption_witness :
    ppLoop defaultConfig 0 true [] [120, 7] =
      ppLoop defaultConfig 0 (if 120 = 34 then false else true) ([] ++ [120]) [7] ∧
    ppLoop defaultConfig 0 false [] [120, 7] =
      ppLoop defaultConfig 0 false ([] ++ [120]) [7] ∧
    ppLoop defaultConfig 0 false [] [0, 7] = (0, false, [], [7]) ∧
    (ppLoop defaultConfig 0 false [] [97, 98]).2.2.2 = [] := by
  obtain ⟨h1, h2, h3, h4⟩ := C10_pp_consumption defaultConfig
  exact ⟨h1 0 [] [7] 120 (by decide), h2 0 [] [7] 120 (by decide) (by decide)
      (by decide) (by decide) (by decide) (by decide) (by decide) (by decide),
    h3 0 false [] [7], h4 [97, 98] (by decide) 0 false []⟩
